import Mathlib

/-!
Verification of the iosbackup_manager ingestion-and-transformation pipeline.

This file gives a shallow embedding, in Lean 4, of the Go functions the
specification talks about:

* the content detector (`content_detector.go`: `FileSignature`,
  `initializeSignatures`, `matchesSignature`, `detectFromMagicBytes`,
  `detectFromExtension`, `DetectFileType`'s classification core);
* the image resizer (`backup_transformer.go`: `resizeImage`);
* the converters (`convertGifToJpeg`, `convertPngToJpeg`,
  `convertWebpToJpeg`, `resizeJpeg`, `resizeJpegImage`), over an explicit
  file-system state and an oracle for the fallible decode/encode/temp steps;
* the `FILE_SAVED` line parser (`backup_runner.go`: `parseSavedFileLine`),
  together with a port of Go's lexical `filepath.Clean` / `Dir` / `Join`;
* the dispatch deduplicator (`backup_transformer.go`: `handleEvent`);
* the per-class semaphores (`NewBackupTransformer` and the converters), as a
  transition system;
* the progress ledger (`backup_runner.go`: `processFile`, `Stop`), as a
  transition system.

Go byte slices are modelled as `List Nat`, Go `map` iteration as an arbitrary
permutation of the insertion list, and effectful steps (file opens, decodes,
temp-file creation, renames) as explicit oracles, so every definition is
executable.
-/

/-- Byte buffers (`[]byte` in Go). A byte is a `Nat`; the code never relies on
overflow behaviour of bytes, it only compares them for equality. -/
abbrev Bytes := List Nat

namespace IosBackup

/-! ### Content detector data model (`content_detector.go`) -/

/-- `FileSignature` from the detector: a named magic-byte signature, with the
byte offset at which the magic sequences occur and the extension used by the
extension fallback. (The `Description` field is carried for faithfulness but
plays no role in classification.) -/
structure FileSignature where
  name : String
  extension : String
  magicBytes : List Bytes
  offset : Nat
  description : String
  deriving DecidableEq, Repr

/-- The signature table built by `initializeSignatures`, in its insertion
order. In the Go code these are inserted into `map[string]FileSignature`
keyed by `Name`; iteration over that map is order-unspecified, so functions
below that iterate the table take the iteration order as an explicit list
parameter, quantified over permutations of this list. -/
def signatureList : List FileSignature :=
  [ { name := "PDF", extension := "pdf", magicBytes := [[0x25, 0x50, 0x44, 0x46]], offset := 0, description := "Adobe PDF Document" },
    { name := "SQLite", extension := "db", magicBytes := [[0x53, 0x51, 0x4C, 0x69, 0x74, 0x65, 0x20, 0x66, 0x6F, 0x72, 0x6D, 0x61, 0x74, 0x20, 0x33, 0x00]], offset := 0, description := "SQLite Database" },
    { name := "JPEG", extension := "jpg", magicBytes := [[0xFF, 0xD8, 0xFF]], offset := 0, description := "JPEG Image" },
    { name := "PNG", extension := "png", magicBytes := [[0x89, 0x50, 0x4E, 0x47, 0x0D, 0x0A, 0x1A, 0x0A]], offset := 0, description := "PNG Image" },
    { name := "GIF", extension := "gif", magicBytes := [[0x47, 0x49, 0x46, 0x38, 0x37, 0x61], [0x47, 0x49, 0x46, 0x38, 0x39, 0x61]], offset := 0, description := "GIF Image" },
    { name := "HEIC", extension := "heic", magicBytes := [[0x66, 0x74, 0x79, 0x70, 0x68, 0x65, 0x69, 0x63]], offset := 4, description := "HEIC Image" },
    { name := "WEBP", extension := "webp", magicBytes := [[0x57, 0x45, 0x42, 0x50]], offset := 8, description := "WEBP Image" },
    { name := "MP4", extension := "mp4", magicBytes := [[0x66, 0x74, 0x79, 0x70]], offset := 4, description := "MP4 Video" },
    { name := "MOV", extension := "mov", magicBytes := [[0x66, 0x74, 0x79, 0x70, 0x71, 0x74]], offset := 4, description := "QuickTime MOV Video" },
    { name := "AVI", extension := "avi", magicBytes := [[0x41, 0x56, 0x49, 0x20]], offset := 8, description := "AVI Video" },
    { name := "MPG", extension := "mpg", magicBytes := [[0x00, 0x00, 0x01, 0xba], [0x00, 0x00, 0x01, 0xb3], [0x00, 0x00, 0x01, 0xb0]], offset := 0, description := "MPEG Video" },
    { name := "WMV", extension := "wmv", magicBytes := [[0x30, 0x26, 0xB2, 0x75, 0x8E, 0x66, 0xCF, 0x11]], offset := 0, description := "Windows Media Video" },
    { name := "FLV", extension := "flv", magicBytes := [[0x46, 0x4C, 0x56, 0x01]], offset := 0, description := "Flash Video" },
    { name := "WebM", extension := "webm", magicBytes := [[0x1A, 0x45, 0xDF, 0xA3]], offset := 0, description := "WebM Video" },
    { name := "MKV", extension := "mkv", magicBytes := [[0x1A, 0x45, 0xDF, 0xA3]], offset := 0, description := "Matroska Video" },
    { name := "MP3", extension := "mp3", magicBytes := [[0x49, 0x44, 0x33], [0xFF, 0xFB], [0xFF, 0xF3], [0xFF, 0xF2]], offset := 0, description := "MP3 Audio" },
    { name := "M4A", extension := "m4a", magicBytes := [[0x66, 0x74, 0x79, 0x70, 0x4D, 0x34, 0x41]], offset := 4, description := "M4A Audio" },
    { name := "WAV", extension := "wav", magicBytes := [[0x52, 0x49, 0x46, 0x46]], offset := 0, description := "WAV Audio" },
    { name := "ZIP", extension := "zip", magicBytes := [[0x50, 0x4B, 0x03, 0x04], [0x50, 0x4B, 0x05, 0x06], [0x50, 0x4B, 0x07, 0x08]], offset := 0, description := "ZIP Archive" },
    { name := "GZIP", extension := "gz", magicBytes := [[0x1F, 0x8B]], offset := 0, description := "GZIP Archive" },
    { name := "XML", extension := "xml", magicBytes := [[0x3C, 0x3F, 0x78, 0x6D, 0x6C]], offset := 0, description := "XML Document" },
    { name := "JSON", extension := "json", magicBytes := [[0x7B], [0x5B]], offset := 0, description := "JSON Data" },
    { name := "PLIST", extension := "plist", magicBytes := [[0x62, 0x70, 0x6C, 0x69, 0x73, 0x74]], offset := 0, description := "Binary Property List" } ]

/-- `matchesSignature`: the buffer matches the magic sequence at the given
offset. Mirrors the Go body: a length guard (`len(buffer) < offset+len(sig)`
returns `false`) followed by `bytes.Equal(buffer[offset:offset+len(sig)], sig)`. -/
def matchesSignature (buffer signature : Bytes) (offset : Nat) : Bool :=
  if buffer.length < offset + signature.length then false
  else (buffer.drop offset).take signature.length == signature

/-- Whether any of a signature's magic sequences matches the buffer
(the inner loop of `detectFromMagicBytes`). -/
def sigMatches (buffer : Bytes) (sig : FileSignature) : Bool :=
  sig.magicBytes.any fun m => matchesSignature buffer m sig.offset

/-- `detectFromMagicBytes`: walk the signature table in the given (map
iteration) order, returning the first signature with a matching magic
sequence, with confidence `"High (magic bytes)"`; otherwise
`("Unknown", "None")`. -/
def detectFromMagicBytes (order : List FileSignature) (buffer : Bytes) : String × String :=
  match order.find? (sigMatches buffer) with
  | some sig => (sig.name, "High (magic bytes)")
  | none => ("Unknown", "None")

/-- ASCII lowercasing of one character, as `strings.ToLower` acts on the
ASCII range (every extension the detector knows is ASCII). -/
def asciiLower (c : Char) : Char :=
  if 'A' ≤ c ∧ c ≤ 'Z' then Char.ofNat (c.toNat + 32) else c

/-- `filepath.Ext`, on the character list of a path: the suffix starting at
the final dot in the final path element, empty if there is none. Implemented
by scanning the reversed path up to the first `.` or path separator. -/
def goExtRev : List Char → List Char
  | [] => []
  | c :: rest =>
      if c = '/' then []
      else if c = '.' then ['.']
      else
        match goExtRev rest with
        | [] => []
        | acc => c :: acc

/-- `filepath.Ext` as a string function. -/
def goExt (path : String) : String :=
  ⟨(goExtRev path.data.reverse).reverse⟩

/-- The lowercased, dot-stripped extension used by `detectFromExtension`:
`strings.ToLower(strings.TrimPrefix(filepath.Ext(filePath), "."))`. -/
def lowerExt (path : String) : String :=
  let e := (goExt path).data
  let trimmed := match e with
    | '.' :: rest => rest
    | other => other
  ⟨trimmed.map asciiLower⟩

/-- The extra plain-text extension table inside `detectFromExtension`
(a map looked up by key only, hence deterministic). -/
def extensionMapLookup (ext : String) : Option String :=
  if ext = "txt" then some "Text"
  else if ext = "log" then some "Log File"
  else if ext = "css" then some "CSS"
  else if ext = "js" then some "JavaScript"
  else if ext = "html" then some "HTML"
  else if ext = "md" then some "Markdown"
  else if ext = "csv" then some "CSV"
  else none

/-- `detectFromExtension`: look the lowercased extension up in the signature
table (walked in the given map iteration order), then in the plain-text
table; `"Unknown"` if neither knows it. -/
def detectFromExtension (order : List FileSignature) (path : String) : String :=
  let ext := lowerExt path
  match order.find? (fun sig => sig.extension == ext) with
  | some sig => sig.name
  | none =>
      match extensionMapLookup ext with
      | some contentType => contentType
      | none => "Unknown"

/-- The classification core of `DetectFileType` (lines 127-137): magic-byte
detection over the first bytes read, then extension fallback with confidence
`"Low (extension-based)"` when the magic bytes yielded `"Unknown"`. Returns
`(contentType, confidence)`. -/
def classify (order : List FileSignature) (buffer : Bytes) (path : String) : String × String :=
  let (contentType, confidence) := detectFromMagicBytes order buffer
  if contentType = "Unknown" then
    let extType := detectFromExtension order path
    if extType ≠ "Unknown" then (extType, "Low (extension-based)")
    else (contentType, confidence)
  else (contentType, confidence)

/-! ### Image resizing (`backup_transformer.go`, `resizeImage`) -/

/-- `standardImageWidth` from the resize constants. -/
def standardImageWidth : Nat := 500

/-- `jpegQuality` from the resize constants. -/
def jpegQuality : Nat := 85

/-- An in-memory image, as `resizeImage` observes Go's `image.Image`
interface: its bounds (`Min` point plus `Dx`/`Dy` extents, which are
non-negative) and its pixel function `At`. Colors are abstracted to `Nat`. -/
structure GoImage where
  minX : Int
  minY : Int
  width : Nat
  height : Nat
  pix : Int → Int → Nat

/-- `resizeImage`: images no wider than `maxWidth` pass through unchanged;
wider images are resized to width `maxWidth`, height
`height*maxWidth/width` floored and clamped to at least 1, sampling
nearest-neighbor from the source. All arithmetic is on non-negative Go ints,
so `Nat` division coincides with Go's. -/
def resizeImage (img : GoImage) (maxWidth : Nat) : GoImage :=
  if img.width ≤ maxWidth then img
  else
    let newHeight0 := img.height * maxWidth / img.width
    let newHeight := if newHeight0 < 1 then 1 else newHeight0
    { minX := 0, minY := 0, width := maxWidth, height := newHeight,
      pix := fun x y =>
        img.pix (img.minX + x * (img.width : Int) / (maxWidth : Int))
                (img.minY + y * (img.height : Int) / (newHeight : Int)) }

/-! ### Go `path/filepath` (Unix rules), used by the runner and converters -/

/-- Split a character list on `/` separators (components may be empty). -/
def splitComps : List Char → List (List Char)
  | [] => [[]]
  | c :: rest =>
      if c = '/' then [] :: splitComps rest
      else
        match splitComps rest with
        | [] => [[c]]
        | h :: t => (c :: h) :: t

/-- The element processing of Go's lexical `filepath.Clean`: drop empty and
`.` components; on `..` pop the previous component if one is poppable, drop
the `..` entirely at a root, and keep it when a relative path begins with
`..` elements. `acc` is the processed stack, most recent first. -/
def cleanComps (rooted : Bool) : List (List Char) → List (List Char) → List (List Char)
  | acc, [] => acc
  | acc, comp :: rest =>
      if comp = [] ∨ comp = ['.'] then cleanComps rooted acc rest
      else if comp = ['.', '.'] then
        match acc with
        | top :: accRest =>
            if top = ['.', '.'] then cleanComps rooted (comp :: acc) rest
            else cleanComps rooted accRest rest
        | [] =>
            if rooted then cleanComps rooted [] rest
            else cleanComps rooted [comp] rest
      else cleanComps rooted (comp :: acc) rest

/-- Join components with `/`. -/
def joinComps : List (List Char) → List Char
  | [] => []
  | [c] => c
  | c :: rest => c ++ '/' :: joinComps rest

/-- Go `filepath.Clean` (Unix separator): shortest lexically-equivalent path.
`""` cleans to `"."`; rooted paths stay rooted; `.` and redundant separators
are removed, `..` cancels a preceding component. -/
def goClean (path : String) : String :=
  if path = "" then "."
  else
    let l := path.data
    let rooted := l.head? = some '/'
    let body := joinComps ((cleanComps rooted [] (splitComps l)).reverse)
    if rooted then ⟨'/' :: body⟩
    else if body = [] then "." else ⟨body⟩

/-- Go `filepath.Dir`: everything up to and including the final separator,
cleaned; `"."` when the path holds no separator. -/
def goDir (path : String) : String :=
  goClean ⟨(path.data.reverse.dropWhile (· ≠ '/')).reverse⟩

/-- Go `filepath.Join` of two elements: non-empty elements joined with `/`,
then cleaned; empty when both elements are empty. -/
def goJoin (a b : String) : String :=
  if a = "" ∧ b = "" then ""
  else if a = "" then goClean b
  else if b = "" then goClean a
  else goClean (a ++ "/" ++ b)

/-! ### `FILE_SAVED` line parsing (`backup_runner.go`, `parseSavedFileLine`) -/

/-- The whitespace class `\s` of Go's regexp package: `[\t\n\f\r ]`. -/
def isSpaceRe (c : Char) : Bool :=
  c = ' ' ∨ c = '\t' ∨ c = '\n' ∨ c = '\r' ∨ c = Char.ofNat 12

/-- The literal `path=` of the extraction regex. -/
def pathKey : List Char := ['p', 'a', 't', 'h', '=']

/-- The literal `domain=` of the extraction regex. -/
def domainKey : List Char := ['d', 'o', 'm', 'a', 'i', 'n', '=']

/-- The optional `(?:\s+domain=([^\s]+))?` part of the extraction regex,
applied to the text following the path capture: one or more whitespace
characters, the literal `domain=`, then a maximal non-empty run of
non-whitespace; an unmatched optional group captures the empty string. -/
def parseDomainPart (l : List Char) : List Char :=
  if (l.takeWhile isSpaceRe).isEmpty then []
  else
    let rest := l.dropWhile isSpaceRe
    if domainKey.isPrefixOf rest then
      (rest.drop 7).takeWhile fun ch => !isSpaceRe ch
    else []

/-- Leftmost match of the regex `path=([^\s]+)(?:\s+domain=([^\s]+))?`
(the `FindStringSubmatch` call in `parseSavedFileLine`), returning the two
captures: scan for the first `path=` occurrence followed by at least one
non-whitespace character, capture the maximal non-whitespace run, then the
optional domain part. -/
def findPathDomain : List Char → Option (List Char × List Char)
  | [] => none
  | c :: rest =>
      if pathKey.isPrefixOf (c :: rest) then
        let after := (c :: rest).drop 5
        let cap := after.takeWhile fun ch => !isSpaceRe ch
        if cap.isEmpty then findPathDomain rest
        else some (cap, parseDomainPart (after.dropWhile fun ch => !isSpaceRe ch))
      else findPathDomain rest

/-- The body of `parseSavedFileLine`, over the line's character list: lines
without the `FILE_SAVED: ` marker yield `("", "")`; otherwise the regex
extracts the relative path and optional domain, the relative path is
resolved against the parent directory of the configured backup directory
(`filepath.Clean(filepath.Join(filepath.Dir(backupDir), rel))`), and the
result is emptied again when `os.Stat` reports the resolved file missing
(`statExists` is the stat oracle). -/
def parseSavedFileCore (statExists : String → Bool) (backupDir : String)
    (l : List Char) : String × String :=
  if !(("FILE_SAVED: ".data).isPrefixOf l) then ("", "")
  else
    match findPathDomain l with
    | none => ("", "")
    | some (relChars, domChars) =>
        let fullPath := goClean (goJoin (goDir backupDir) ⟨relChars⟩)
        if !statExists fullPath then ("", "")
        else (fullPath, ⟨domChars⟩)

/-- `parseSavedFileLine` as the runner calls it, on a line string. -/
def parseSavedFileLine (statExists : String → Bool) (backupDir : String)
    (line : String) : String × String :=
  parseSavedFileCore statExists backupDir line.data

/-! ### Converters (`backup_transformer.go`) over an explicit file system

The file system is a map from paths to file contents; the fallible
library/OS steps a converter takes (decoding, JPEG encoding, temp-file
creation, renaming) are an oracle `ConvEnv`, so a theorem quantifying over
`ConvEnv` covers every pattern of success and failure of those steps. -/

/-- File-system state: which bytes live at which path. -/
def FSm := String → Option Bytes

/-- Point update of the file system (`none` deletes). -/
def fsSet (fs : FSm) (p : String) (v : Option Bytes) : FSm :=
  fun q => if q = p then v else fs q

/-- `os.Rename(src, dst)`: the destination receives the source's bytes and
the source ceases to exist. -/
def goRename (fs : FSm) (src dst : String) : FSm :=
  fsSet (fsSet fs src none) dst (fs src)

/-- Oracle for the converters' fallible steps: the image decoders
(`gif.Decode`, `png.Decode`, `webp.Decode`, `jpeg.Decode`), the JPEG
encoder, the fresh basename `os.CreateTemp` would pick, and the
success/failure of `os.CreateTemp`, `os.Create` and `os.Rename`. -/
structure ConvEnv where
  decodeGif : Bytes → Option GoImage
  decodePng : Bytes → Option GoImage
  decodeWebp : Bytes → Option GoImage
  decodeJpeg : Bytes → Option GoImage
  encodeJpeg : GoImage → Option Bytes
  tempBase : String
  tempOk : Bool
  createOk : Bool
  renameOk : Bool

/-- The path of the temp file the converters create: `os.CreateTemp` is
called with `filepath.Dir(path)` and produces a fresh name inside that
directory. -/
def tempPathFor (env : ConvEnv) (path : String) : String :=
  let dir := goDir path
  if dir.data.getLast? = some '/' then dir ++ env.tempBase
  else dir ++ "/" ++ env.tempBase

/-- The shared body of `convertGifToJpeg` / `convertPngToJpeg` /
`convertWebpToJpeg` (the three differ only in the decoder and the temp-name
pattern): open the source, decode, resize, create a temp file in the source's
directory, encode the resized image into it as JPEG quality 85, and rename
the temp file over the original; every failure returns `false`, and the
deferred `os.Remove(tempJpegPath)` deletes any temp file still present. -/
def convertImageToJpeg (decode : Bytes → Option GoImage) (env : ConvEnv)
    (fs : FSm) (path : String) : Bool × FSm :=
  match fs path with
  | none => (false, fs)
  | some contents =>
      match decode contents with
      | none => (false, fs)
      | some img =>
          let resizedImg := resizeImage img standardImageWidth
          if !env.tempOk then (false, fs)
          else
            let tempJpegPath := tempPathFor env path
            let fs1 := fsSet fs tempJpegPath (some [])
            match env.encodeJpeg resizedImg with
            | none => (false, fsSet fs1 tempJpegPath none)
            | some encoded =>
                let fs2 := fsSet fs1 tempJpegPath (some encoded)
                if env.renameOk then (true, goRename fs2 tempJpegPath path)
                else (false, fsSet fs2 tempJpegPath none)

/-- `convertGifToJpeg`: GIF decode, then the shared temp-encode-rename body. -/
def convertGifToJpeg (env : ConvEnv) (fs : FSm) (path : String) : Bool × FSm :=
  convertImageToJpeg env.decodeGif env fs path

/-- `convertPngToJpeg`: PNG decode, then the shared temp-encode-rename body. -/
def convertPngToJpeg (env : ConvEnv) (fs : FSm) (path : String) : Bool × FSm :=
  convertImageToJpeg env.decodePng env fs path

/-- `convertWebpToJpeg`: WEBP decode, then the shared temp-encode-rename body. -/
def convertWebpToJpeg (env : ConvEnv) (fs : FSm) (path : String) : Bool × FSm :=
  convertImageToJpeg env.decodeWebp env fs path

/-- `resizeJpegImage`: decode the JPEG at `jpegPath`, resize, and write the
result to a fresh temp file in the same directory (created by
`os.CreateTemp`, then re-opened with `os.Create`), returning the temp path;
on a create or encode failure the temp file is removed and `none` is
returned together with the file system as the failure left it. -/
def resizeJpegImage (env : ConvEnv) (fs : FSm) (jpegPath : String)
    (maxWidth : Nat) : Option String × FSm :=
  match fs jpegPath with
  | none => (none, fs)
  | some contents =>
      match env.decodeJpeg contents with
      | none => (none, fs)
      | some img =>
          let resizedImg := resizeImage img maxWidth
          if !env.tempOk then (none, fs)
          else
            let resizedPath := tempPathFor env jpegPath
            let fs1 := fsSet fs resizedPath (some [])
            if !env.createOk then (none, fsSet fs1 resizedPath none)
            else
              match env.encodeJpeg resizedImg with
              | none => (none, fsSet fs1 resizedPath none)
              | some encoded => (some resizedPath, fsSet fs1 resizedPath (some encoded))

/-- `resizeJpeg`: resize via `resizeJpegImage` and rename the resized temp
file over the original; on a resize failure return `false` with the
original untouched, and on a rename failure remove the temp file. -/
def resizeJpeg (env : ConvEnv) (fs : FSm) (jpegFilePath : String) : Bool × FSm :=
  match resizeJpegImage env fs jpegFilePath standardImageWidth with
  | (none, fs1) => (false, fs1)
  | (some resizedJpegPath, fs1) =>
      if env.renameOk then (true, goRename fs1 resizedJpegPath jpegFilePath)
      else (false, fsSet fs1 resizedJpegPath none)

/-! ### Dispatch deduplication (`backup_transformer.go`, `handleEvent`) -/

/-- The deduplication window of `handleEvent`: `2*time.Second`, in
nanoseconds (Go `time.Duration` units). -/
def dedupWindow : Nat := 2000000000

/-- The deduplication core of `handleEvent` (under `bfm.mu`): look the path
up in `processedFiles`; if an entry exists and is younger than the window,
reject without touching the map; otherwise record `now` for the path and
admit. Timestamps are nanoseconds of a monotone clock. -/
def handleEventDedup (processedFiles : String → Option Nat) (path : String)
    (now : Nat) : Bool × (String → Option Nat) :=
  match processedFiles path with
  | some lastProcessed =>
      if now - lastProcessed < dedupWindow then (false, processedFiles)
      else (true, fun q => if q = path then some now else processedFiles q)
  | none => (true, fun q => if q = path then some now else processedFiles q)

/-- Run a sequence of dispatch requests `(path, time)` through the
deduplicator, collecting each request's admit/reject outcome. -/
def runDedup (processedFiles : String → Option Nat) :
    List (String × Nat) → List Bool
  | [] => []
  | (p, t) :: rest =>
      let r := handleEventDedup processedFiles p t
      r.1 :: runDedup r.2 rest

/-! ### Per-class semaphores (`NewBackupTransformer` and the converters)

`NewBackupTransformer` allocates three buffered channels used as counting
semaphores; `convertVideoToJpeg`, `convertHeicToJpeg` and `convertGifToJpeg`
send into their channel on entry (blocking while the buffer is full) and
receive from it in a `defer` on every exit path. PNG/WEBP/JPEG conversions
touch no semaphore. The buffered channel is modelled by its occupancy: a
send is enabled only below capacity, a receive only above zero. -/

/-- A converter class. -/
inductive ConvClass
  | video
  | heic
  | gif
  | png
  | webp
  | jpeg
  deriving DecidableEq, Repr

/-- Capacity of the video semaphore (`make(chan struct{}, 5)`). -/
def videoSemCap : Nat := 5

/-- Capacity of the HEIC semaphore (`make(chan struct{}, 100)`). -/
def heicSemCap : Nat := 100

/-- Capacity of the GIF semaphore (`make(chan struct{}, 5)`). -/
def gifSemCap : Nat := 5

/-- The semaphore, if any, gating a converter class's heavyweight step. -/
def semCap : ConvClass → Option Nat
  | .video => some videoSemCap
  | .heic => some heicSemCap
  | .gif => some gifSemCap
  | .png => none
  | .webp => none
  | .jpeg => none

/-- Semaphore state: current occupancy (= number of conversions of the class
currently holding a slot, i.e. inside the heavyweight section). -/
def SemState := ConvClass → Nat

/-- One scheduler step: a conversion acquires its class's semaphore (enabled
only while occupancy is below capacity — the channel send blocks otherwise),
or a conversion holding a slot releases it (the deferred receive, which runs
on every exit path). -/
inductive SemStep : SemState → SemState → Prop
  | acquire (s : SemState) (c : ConvClass) (cap : Nat)
      (hcap : semCap c = some cap) (h : s c < cap) :
      SemStep s (fun d => if d = c then s c + 1 else s d)
  | release (s : SemState) (c : ConvClass) (h : 0 < s c) :
      SemStep s (fun d => if d = c then s c - 1 else s d)

/-- Initially every semaphore is empty. -/
def semInit : SemState := fun _ => 0

/-- States the semaphore system can reach from start-up by any interleaving. -/
def SemReachable (s : SemState) : Prop :=
  Relation.ReflTransGen SemStep semInit s

/-! ### Progress ledger (`backup_runner.go`, `processFile` / `Stop`)

Each dispatched job runs `processFile`, which increments `activeCount` under
`countMu`, then calls `ProcessFileByExtension`, then decrements
`activeCount` under `countMu`. `totalCount` is incremented (once, under the
same mutex, via the `incrementTotal` callback installed by
`NewBackupRunner`) by jobs that actually begin transformation.
`ProcessFileByExtension` itself is not among the provided sources, so the
placement of its single `incrementTotal` call is modelled from the spec:
"totalCount increments exactly once per job that actually begins
transformation"; that call necessarily happens between the job's
`activeCount` increment and decrement, which are in the provided source.

A job is in phase 0 before its `activeCount` increment, phase 1 after it,
phase 2 after its `incrementTotal` point (a no-op for jobs that never begin
transformation), and phase 3 after its `activeCount` decrement. `flags j`
says whether job `j` begins transformation. -/

/-- The mutex-protected counters plus each job's phase. -/
structure LedgerState where
  phases : List Nat
  active : Int
  total : Int
  deriving DecidableEq, Repr

/-- One mutex-serialized ledger step. -/
inductive LedgerStep (flags : List Bool) : LedgerState → LedgerState → Prop
  | start (s : LedgerState) (j : Nat) (h : s.phases[j]? = some 0) :
      LedgerStep flags s ⟨s.phases.set j 1, s.active + 1, s.total⟩
  | work (s : LedgerState) (j : Nat) (h : s.phases[j]? = some 1) :
      LedgerStep flags s
        ⟨s.phases.set j 2, s.active, s.total + if flags.getD j false then 1 else 0⟩
  | finish (s : LedgerState) (j : Nat) (h : s.phases[j]? = some 2) :
      LedgerStep flags s ⟨s.phases.set j 3, s.active - 1, s.total⟩

/-- Initial ledger: no job started, both counters zero. -/
def ledgerInit (n : Nat) : LedgerState :=
  ⟨List.replicate n 0, 0, 0⟩

/-- States the ledger can reach by any interleaving of the jobs' steps. -/
def LedgerReachable (flags : List Bool) (s : LedgerState) : Prop :=
  Relation.ReflTransGen (LedgerStep flags) (ledgerInit flags.length) s

/-- Number of jobs currently between their `activeCount` increment and
decrement (phases 1 and 2). -/
def countActive : List Nat → Nat
  | [] => 0
  | p :: ps => (if p = 1 ∨ p = 2 then 1 else 0) + countActive ps

/-- Number of jobs past their `incrementTotal` point that begin
transformation. -/
def countCounted : List Nat → List Bool → Nat
  | [], _ => 0
  | _ :: _, [] => 0
  | p :: ps, f :: fl => (if 2 ≤ p ∧ f then 1 else 0) + countCounted ps fl

/-! ### Helper lemmas -/

/-- `find?` returns the unique element satisfying the predicate, whatever the
order of the list: the engine of the determinism arguments below. -/
theorem find_eq_of_unique {α : Type} (p : α → Bool) (l : List α) (a : α)
    (ha : a ∈ l) (hpa : p a = true) (huniq : ∀ b ∈ l, p b = true → b = a) :
    l.find? p = some a := by
  induction l with
  | nil => cases ha
  | cons b t ih =>
      by_cases hb : p b = true
      · have hba : b = a := huniq b (List.mem_cons_self b t) hb
        rw [List.find?_cons_of_pos _ hb, hba]
      · have hb' : p b = false := by
          cases hpb : p b
          · rfl
          · exact absurd hpb hb
        rw [List.find?_cons_of_neg _ (by simp [hb'])]
        have hat : a ∈ t := by
          rcases List.mem_cons.mp ha with h | h
          · exact absurd (h ▸ hpa) hb
          · exact h
        exact ih hat fun c hc hpc => huniq c (List.mem_cons_of_mem b hc) hpc

/-- `takeWhile` passes over a block whose elements all satisfy the predicate. -/
theorem takeWhile_append_all {p : Char → Bool} (l₁ l₂ : List Char)
    (h : ∀ c ∈ l₁, p c = true) :
    (l₁ ++ l₂).takeWhile p = l₁ ++ l₂.takeWhile p := by
  induction l₁ with
  | nil => simp
  | cons c t ih =>
      have hc : p c = true := h c (List.mem_cons_self c t)
      simp only [List.cons_append, List.takeWhile_cons, hc, if_true]
      rw [ih fun d hd => h d (List.mem_cons_of_mem c hd)]

/-- `dropWhile` drops past a block whose elements all satisfy the predicate. -/
theorem dropWhile_append_all {p : Char → Bool} (l₁ l₂ : List Char)
    (h : ∀ c ∈ l₁, p c = true) :
    (l₁ ++ l₂).dropWhile p = l₂.dropWhile p := by
  induction l₁ with
  | nil => simp
  | cons c t ih =>
      have hc : p c = true := h c (List.mem_cons_self c t)
      simp only [List.cons_append, List.dropWhile_cons, hc, if_true]
      exact ih fun d hd => h d (List.mem_cons_of_mem c hd)

/-- `takeWhile` keeps a list all of whose elements satisfy the predicate. -/
theorem takeWhile_all {p : Char → Bool} (l : List Char)
    (h : ∀ c ∈ l, p c = true) : l.takeWhile p = l := by
  have := takeWhile_append_all (p := p) l [] h
  simpa using this

/-! ### C10: totality of `matchesSignature` -/

/-- C10: `matchesSignature` is total and in-bounds by construction: whenever
the buffer is shorter than `offset + len(signature)` it returns `false`
without inspecting any byte, so a classification of a short read (fewer than
64 bytes, including an empty file) simply fails to match every signature of
the table whose magic bytes would extend past the data read. -/
theorem matchesSignature_short_returns_false (buffer signature : Bytes) (offset : Nat) :
    (buffer.length < offset + signature.length →
      matchesSignature buffer signature offset = false) ∧
    (∀ sig ∈ signatureList, ∀ m ∈ sig.magicBytes,
      buffer.length < sig.offset + m.length →
      matchesSignature buffer m sig.offset = false) := by
  constructor
  · intro h
    simp [matchesSignature, h]
  · intro sig _ m _ h
    simp [matchesSignature, h]

/-- C10 witness: the empty buffer (an empty file's read) fails to match the
PNG signature, whose 8 magic bytes extend past the end of the data. -/
theorem matchesSignature_short_returns_false_witness :
    matchesSignature [] [0x89, 0x50, 0x4E, 0x47, 0x0D, 0x0A, 0x1A, 0x0A] 0 = false :=
  (matchesSignature_short_returns_false [] [0x89, 0x50, 0x4E, 0x47, 0x0D, 0x0A, 0x1A, 0x0A] 0).1
    (by decide)

/-! ### C2: `resizeImage` geometry and idempotence -/

/-- C2: `resizeImage` at the standard width 500 maps an image wider than 500
to one of width exactly 500 and height `max 1 (height*500/width)`
(floored division), returns an image of width at most 500 unchanged, and is
therefore idempotent under repeated application. -/
theorem resizeImage_spec (img : GoImage) :
    (standardImageWidth < img.width →
      (resizeImage img standardImageWidth).width = 500 ∧
      (resizeImage img standardImageWidth).height =
        max 1 (img.height * 500 / img.width)) ∧
    (img.width ≤ standardImageWidth → resizeImage img standardImageWidth = img) ∧
    resizeImage (resizeImage img standardImageWidth) standardImageWidth =
      resizeImage img standardImageWidth := by
  refine ⟨?_, ?_, ?_⟩
  · intro h
    have h' : ¬ img.width ≤ standardImageWidth := by omega
    constructor
    · rw [resizeImage, if_neg h']
      rfl
    · have hh : (resizeImage img standardImageWidth).height =
          if img.height * 500 / img.width < 1 then 1
          else img.height * 500 / img.width := by
        rw [resizeImage, if_neg h']
        rfl
      rw [hh]
      rcases Nat.lt_or_ge (img.height * 500 / img.width) 1 with hc | hc
      · rw [if_pos hc]
        omega
      · rw [if_neg (by omega)]
        omega
  · intro h
    simp [resizeImage, h]
  · by_cases h : img.width ≤ standardImageWidth
    · simp [resizeImage, h]
    · have hw : (resizeImage img standardImageWidth).width = standardImageWidth := by
        simp [resizeImage, h]
      have hle : (resizeImage img standardImageWidth).width ≤ standardImageWidth := by
        omega
      rw [resizeImage, if_pos hle]

/-- C2 witness: an 800×600 image resizes to 500×375 = 500 × (600*500/800),
a 300×200 image passes through unchanged, and resizing twice equals
resizing once. -/
theorem resizeImage_spec_witness :
    (resizeImage ⟨0, 0, 800, 600, fun _ _ => 0⟩ standardImageWidth).width = 500 ∧
    (resizeImage ⟨0, 0, 800, 600, fun _ _ => 0⟩ standardImageWidth).height =
      max 1 (600 * 500 / 800) ∧
    resizeImage ⟨0, 0, 300, 200, fun _ _ => 7⟩ standardImageWidth =
      ⟨0, 0, 300, 200, fun _ _ => 7⟩ := by
  refine ⟨((resizeImage_spec ⟨0, 0, 800, 600, fun _ _ => 0⟩).1 (by decide)).1,
          ((resizeImage_spec ⟨0, 0, 800, 600, fun _ _ => 0⟩).1 (by decide)).2,
          (resizeImage_spec ⟨0, 0, 300, 200, fun _ _ => 7⟩).2.1 (by decide)⟩

/-! ### C3: the missing 50 MB allocation guard -/

/-- C3: `resizeImage` in `backup_transformer.go` has no destination-size
guard at all — its return type admits no error. At the spec's own failing
input (a 15000×15000 image resized to target width 10000, whose RGBA
destination buffer of 10000×10000×4 bytes far exceeds 50 MB) it happily
produces a 10000×10000 output instead of rejecting with a "too large"
error, contradicting the repository's `TestMemoryAllocationGuard` and its
robustness notes ("Added size validation before allocation (50MB limit)"). -/
theorem resizeImage_lacks_allocation_guard :
    (resizeImage ⟨0, 0, 15000, 15000, fun _ _ => 0⟩ 10000).width = 10000 ∧
    (resizeImage ⟨0, 0, 15000, 15000, fun _ _ => 0⟩ 10000).height = 10000 ∧
    50 * 1024 * 1024 < 10000 * 10000 * 4 := by
  refine ⟨?_, ?_, by norm_num⟩ <;> simp [resizeImage]

/-! ### C7: the dispatch deduplicator -/

/-- C7: the deduplicator admits a path iff it has no recorded prior
admission or the prior admission is at least the 2-second window old, and
records the admission time only when it admits; concretely, two requests
for a path 200 ms apart yield exactly one admission and a third request 3 s
after the second is admitted again. -/
theorem handleEventDedup_spec :
    (∀ (m : String → Option Nat) (path : String) (now : Nat),
      ((handleEventDedup m path now).1 = true ↔
        m path = none ∨ ∃ last, m path = some last ∧ dedupWindow ≤ now - last)) ∧
    runDedup (fun _ => none)
      [("p", 1000000000), ("p", 1200000000), ("p", 4200000000)] =
      [true, false, true] := by
  constructor
  · intro m path now
    unfold handleEventDedup
    cases hm : m path with
    | none => simp
    | some last =>
        by_cases hlt : now - last < dedupWindow
        · simp only [hlt, if_true]
          constructor
          · intro h
            simp at h
          · rintro (h | ⟨l, hl, hge⟩)
            · simp at h
            · injection hl with hl'
              omega
        · simp only [hlt, if_false]
          constructor
          · intro _
            exact Or.inr ⟨last, rfl, by omega⟩
          · intro _
            trivial
  · decide

/-- C7 witness: a first-ever request (no recorded admission) is admitted. -/
theorem handleEventDedup_spec_witness :
    (handleEventDedup (fun _ => none) "q" 5).1 = true :=
  ((handleEventDedup_spec.1 (fun _ => none) "q" 5)).mpr (Or.inl rfl)

/-! ### C4: magic-byte classification and map iteration order -/

/-- A legal iteration order of the signature map that yields MKV before
WebM: the canonical insertion list rotated so that the MKV entry comes
first. -/
def mkvFirstOrder : List FileSignature :=
  signatureList.drop 14 ++ signatureList.take 14

/-- C4 counterexample: classification from magic bytes is NOT deterministic.
The WebM and MKV signatures carry the identical magic `1A 45 DF A3` at
offset 0, and the table is a Go `map` iterated in unspecified order
(`detectFromMagicBytes` ranges over `cd.signatures`), not a fixed
priority-ordered list. The buffer `[0x1A, 0x45, 0xDF, 0xA3]` contains the
MKV signature's magic bytes at its declared offset, yet under the insertion
order the classifier answers `WebM`, and under the equally legal rotated
order `mkvFirstOrder` it answers `MKV` — so for signature S = MKV the claim
"returns S independent of any map or iteration order" fails. -/
theorem detectFromMagicBytes_order_dependent :
    (∃ sigMKV ∈ signatureList, sigMKV.name = "MKV" ∧ sigMKV.offset = 0 ∧
       [0x1A, 0x45, 0xDF, 0xA3] ∈ sigMKV.magicBytes ∧
       matchesSignature [0x1A, 0x45, 0xDF, 0xA3] [0x1A, 0x45, 0xDF, 0xA3] 0 = true) ∧
    mkvFirstOrder.Perm signatureList ∧
    detectFromMagicBytes signatureList [0x1A, 0x45, 0xDF, 0xA3] =
      ("WebM", "High (magic bytes)") ∧
    detectFromMagicBytes mkvFirstOrder [0x1A, 0x45, 0xDF, 0xA3] =
      ("MKV", "High (magic bytes)") ∧
    "WebM" ≠ "MKV" := by
  refine ⟨by decide, ?_, by decide, by decide, by decide⟩
  show (signatureList.drop 14 ++ signatureList.take 14).Perm signatureList
  have h2 : (signatureList.drop 14 ++ signatureList.take 14).Perm
      (signatureList.take 14 ++ signatureList.drop 14) := List.perm_append_comm
  rw [List.take_append_drop] at h2
  exact h2

/-- C4 amended: classification from magic bytes is deterministic exactly for
buffers matched by a unique signature: if signature S's magic matches the
buffer and no other signature of the table matches it, then every iteration
order of the signature map classifies the buffer as S with High
confidence. -/
theorem detectFromMagicBytes_unique_match_deterministic
    (order : List FileSignature) (buffer : Bytes) (sig : FileSignature)
    (hperm : order.Perm signatureList)
    (hmem : sig ∈ signatureList)
    (hmatch : sigMatches buffer sig = true)
    (huniq : ∀ t ∈ signatureList, sigMatches buffer t = true → t = sig) :
    detectFromMagicBytes order buffer = (sig.name, "High (magic bytes)") := by
  have hmem' : sig ∈ order := hperm.mem_iff.mpr hmem
  have hfind : order.find? (sigMatches buffer) = some sig :=
    find_eq_of_unique _ order sig hmem' hmatch
      fun t ht hpt => huniq t (hperm.subset ht) hpt
  simp [detectFromMagicBytes, hfind]

/-- C4 amended witness: a buffer holding the PNG magic is matched by the PNG
signature only, so the insertion order classifies it as PNG/High. -/
theorem detectFromMagicBytes_unique_match_deterministic_witness :
    detectFromMagicBytes signatureList [0x89, 0x50, 0x4E, 0x47, 0x0D, 0x0A, 0x1A, 0x0A] =
      ("PNG", "High (magic bytes)") :=
  detectFromMagicBytes_unique_match_deterministic signatureList
    [0x89, 0x50, 0x4E, 0x47, 0x0D, 0x0A, 0x1A, 0x0A]
    { name := "PNG", extension := "png",
      magicBytes := [[0x89, 0x50, 0x4E, 0x47, 0x0D, 0x0A, 0x1A, 0x0A]],
      offset := 0, description := "PNG Image" }
    (List.Perm.refl _) (by decide) (by decide) (by decide)

/-! ### C5: extension fallback classification -/

/-- No signature in the table is named `Unknown`. -/
theorem signature_names_ne_unknown : ∀ s ∈ signatureList, s.name ≠ "Unknown" := by
  decide

/-- Extensions identify table entries uniquely. -/
theorem signature_extensions_unique :
    ∀ a ∈ signatureList, ∀ b ∈ signatureList, a.extension = b.extension → a = b := by
  decide

/-- The plain-text extension table never answers `Unknown`. -/
theorem extensionMapLookup_ne_unknown (ext ct : String)
    (h : extensionMapLookup ext = some ct) : ct ≠ "Unknown" := by
  unfold extensionMapLookup at h
  split_ifs at h <;> simp_all <;> subst h <;> decide

/-- A magic-byte result of `("Unknown", "None")` means no signature matched. -/
theorem detectFromMagicBytes_unknown_find (order : List FileSignature) (buffer : Bytes)
    (h : detectFromMagicBytes order buffer = ("Unknown", "None")) :
    order.find? (sigMatches buffer) = none := by
  cases hfind : order.find? (sigMatches buffer) with
  | none => rfl
  | some s =>
      unfold detectFromMagicBytes at h
      rw [hfind] at h
      simp [Prod.ext_iff] at h

/-- C5: when no magic-byte signature matches the buffer, classification
falls back to the lowercased file extension: a known extension (in the
signature table, or else in the plain-text table) yields that content type
with confidence `Low (extension-based)`, and an unknown extension yields
`("Unknown", "None")` — under every iteration order of the signature map. -/
theorem classify_extension_fallback :
    (∀ (order : List FileSignature) (buffer : Bytes) (path : String)
        (sig : FileSignature), order.Perm signatureList →
      detectFromMagicBytes order buffer = ("Unknown", "None") →
      sig ∈ signatureList → lowerExt path = sig.extension →
      classify order buffer path = (sig.name, "Low (extension-based)")) ∧
    (∀ (order : List FileSignature) (buffer : Bytes) (path : String)
        (ct : String), order.Perm signatureList →
      detectFromMagicBytes order buffer = ("Unknown", "None") →
      (∀ sig ∈ signatureList, lowerExt path ≠ sig.extension) →
      extensionMapLookup (lowerExt path) = some ct →
      classify order buffer path = (ct, "Low (extension-based)")) ∧
    (∀ (order : List FileSignature) (buffer : Bytes) (path : String),
      order.Perm signatureList →
      detectFromMagicBytes order buffer = ("Unknown", "None") →
      (∀ sig ∈ signatureList, lowerExt path ≠ sig.extension) →
      extensionMapLookup (lowerExt path) = none →
      classify order buffer path = ("Unknown", "None")) := by
  refine ⟨?_, ?_, ?_⟩
  · intro order buffer path sig hperm hmagic hmem hext
    have hfind : order.find? (fun t => t.extension == lowerExt path) = some sig := by
      refine find_eq_of_unique _ order sig (hperm.mem_iff.mpr hmem) ?_ ?_
      · simp [hext]
      · intro t ht hpt
        have ht' : t ∈ signatureList := hperm.subset ht
        have heq : t.extension = sig.extension := by
          have h1 : t.extension = lowerExt path := by simpa using hpt
          rw [h1, hext]
        exact signature_extensions_unique t ht' sig hmem heq
    have hextn : detectFromExtension order path = sig.name := by
      simp [detectFromExtension, hfind]
    have hne : sig.name ≠ "Unknown" := signature_names_ne_unknown sig hmem
    unfold classify
    rw [hmagic]
    simp [hextn, hne]
  · intro order buffer path ct hperm hmagic hnone hmap
    have hfind : order.find? (fun t => t.extension == lowerExt path) = none := by
      rw [List.find?_eq_none]
      intro t ht
      have := hnone t (hperm.subset ht)
      simp [Ne.symm this]
    have hextn : detectFromExtension order path = ct := by
      simp [detectFromExtension, hfind, hmap]
    have hne : ct ≠ "Unknown" := extensionMapLookup_ne_unknown _ _ hmap
    unfold classify
    rw [hmagic]
    simp [hextn, hne]
  · intro order buffer path hperm hmagic hnone hmap
    have hfind : order.find? (fun t => t.extension == lowerExt path) = none := by
      rw [List.find?_eq_none]
      intro t ht
      have := hnone t (hperm.subset ht)
      simp [Ne.symm this]
    have hextn : detectFromExtension order path = "Unknown" := by
      simp [detectFromExtension, hfind, hmap]
    unfold classify
    rw [hmagic]
    simp [hextn]

/-- C5 witness: an empty read matches no magic bytes; a `.heic` filename then
classifies as HEIC with Low confidence, a `.txt` filename as Text with Low
confidence, and a `.xyz` filename stays Unknown/None. -/
theorem classify_extension_fallback_witness :
    classify signatureList [] "a/photo.heic" = ("HEIC", "Low (extension-based)") ∧
    classify signatureList [] "a/note.txt" = ("Text", "Low (extension-based)") ∧
    classify signatureList [] "a/blob.xyz" = ("Unknown", "None") :=
  ⟨classify_extension_fallback.1 signatureList [] "a/photo.heic"
      { name := "HEIC", extension := "heic",
        magicBytes := [[0x66, 0x74, 0x79, 0x70, 0x68, 0x65, 0x69, 0x63]],
        offset := 4, description := "HEIC Image" }
      (List.Perm.refl _) (by decide) (by decide) (by decide),
   classify_extension_fallback.2.1 signatureList [] "a/note.txt" "Text"
      (List.Perm.refl _) (by decide) (by decide) (by decide),
   classify_extension_fallback.2.2 signatureList [] "a/blob.xyz"
      (List.Perm.refl _) (by decide) (by decide) (by decide)⟩

/-! ### C6: `FILE_SAVED` line parsing -/

/-- The scanner skips a position whose character cannot start `path=`. -/
theorem findPathDomain_cons_ne (c : Char) (l : List Char) (hc : c ≠ 'p') :
    findPathDomain (c :: l) = findPathDomain l := by
  have hfalse : pathKey.isPrefixOf (c :: l) = false := by
    show (('p' == c) && List.isPrefixOf ['a', 't', 'h', '='] l) = false
    cases hpc : ('p' == c) with
    | false => rfl
    | true => exact absurd (eq_of_beq hpc).symm hc
  simp [findPathDomain, hfalse]

/-- Evaluation of the scanner on a well-formed `path=<rel> domain=<dom>`
region: the captures are exactly `rel` and `dom` when `rel` is non-empty
and both are whitespace-free. -/
theorem findPathDomain_wellformed (rel dom : List Char) (hrel : rel ≠ [])
    (hrelns : ∀ c ∈ rel, isSpaceRe c = false)
    (hdomns : ∀ c ∈ dom, isSpaceRe c = false) :
    findPathDomain ('p' :: 'a' :: 't' :: 'h' :: '=' ::
        (rel ++ ' ' :: ("domain=".data ++ dom))) = some (rel, dom) := by
  have hrel' : ∀ c ∈ rel, (!isSpaceRe c) = true := fun c hc => by
    simp [hrelns c hc]
  have hdom' : ∀ c ∈ dom, (!isSpaceRe c) = true := fun c hc => by
    simp [hdomns c hc]
  have hpre : pathKey.isPrefixOf ('p' :: 'a' :: 't' :: 'h' :: '=' ::
      (rel ++ ' ' :: ("domain=".data ++ dom))) = true := by
    simp [pathKey, List.isPrefixOf]
  have hre : rel.isEmpty = false := by
    cases rel with
    | nil => exact absurd rfl hrel
    | cons a t => rfl
  have h1 : ((' ' :: ("domain=".data ++ dom)).takeWhile fun ch => !isSpaceRe ch) =
      [] := rfl
  have h2 : ((' ' :: ("domain=".data ++ dom)).dropWhile fun ch => !isSpaceRe ch) =
      ' ' :: ("domain=".data ++ dom) := rfl
  have hpd : parseDomainPart (' ' :: ("domain=".data ++ dom)) = dom := by
    unfold parseDomainPart
    have h3 : ((' ' :: ("domain=".data ++ dom)).takeWhile isSpaceRe).isEmpty =
        false := rfl
    rw [h3]
    simp only [Bool.false_eq_true, if_false]
    have h4 : (' ' :: ("domain=".data ++ dom)).dropWhile isSpaceRe =
        "domain=".data ++ dom := rfl
    rw [h4]
    have h5 : domainKey.isPrefixOf ("domain=".data ++ dom) = true := by
      show domainKey.isPrefixOf ('d' :: 'o' :: 'm' :: 'a' :: 'i' :: 'n' :: '=' :: dom) = true
      simp [domainKey, List.isPrefixOf]
    rw [h5]
    simp only [if_true]
    have h6 : ("domain=".data ++ dom).drop 7 = dom := rfl
    rw [h6]
    exact takeWhile_all dom hdom'
  simp only [findPathDomain, hpre, if_true]
  have hdrop : ('p' :: 'a' :: 't' :: 'h' :: '=' ::
      (rel ++ ' ' :: ("domain=".data ++ dom))).drop 5 =
      rel ++ ' ' :: ("domain=".data ++ dom) := rfl
  rw [hdrop, takeWhile_append_all rel (' ' :: ("domain=".data ++ dom)) hrel', h1,
    List.append_nil, dropWhile_append_all rel (' ' :: ("domain=".data ++ dom)) hrel',
    h2, hre, hpd]
  simp

/-- C6 counterexample: `parseSavedFileLine` additionally verifies that the
resolved file exists (`os.Stat` at the end of the function) — a well-formed
`FILE_SAVED:` line whose resolved file is missing maps to `("", "")`, not
to the resolved (path, domain) pair as the claim states for every such
line. -/
theorem parseSavedFileLine_missing_file :
    parseSavedFileLine (fun _ => false) "/data/00008110-Y"
        "FILE_SAVED: path=00008110-X/Snapshot/test.txt domain=MediaDomain" = ("", "") ∧
    goClean (goJoin (goDir "/data/00008110-Y") "00008110-X/Snapshot/test.txt") =
      "/data/00008110-X/Snapshot/test.txt" ∧
    (("", "") : String × String) ≠
      ("/data/00008110-X/Snapshot/test.txt", "MediaDomain") := by
  refine ⟨by decide, by decide, by decide⟩

/-- C6 amended: whenever the resolved file exists, every line
`FILE_SAVED: path=<rel> domain=<dom>` (with `<rel>` non-empty and both
fields whitespace-free) parses to the pair of the resolved full path — the
relative path joined to the parent directory of the configured backup
directory — and the domain; and every line that does not begin with the
`FILE_SAVED: ` marker yields `("", "")`. -/
theorem parseSavedFileLine_spec :
    (∀ (statExists : String → Bool) (backupDir : String) (rel dom : List Char),
      rel ≠ [] →
      (∀ c ∈ rel, isSpaceRe c = false) →
      (∀ c ∈ dom, isSpaceRe c = false) →
      statExists (goClean (goJoin (goDir backupDir) ⟨rel⟩)) = true →
      parseSavedFileLine statExists backupDir
          ⟨"FILE_SAVED: path=".data ++ rel ++ " domain=".data ++ dom⟩ =
        (goClean (goJoin (goDir backupDir) ⟨rel⟩), ⟨dom⟩)) ∧
    (∀ (statExists : String → Bool) (backupDir line : String),
      ("FILE_SAVED: ".data).isPrefixOf line.data = false →
      parseSavedFileLine statExists backupDir line = ("", "")) := by
  constructor
  · intro statExists backupDir rel dom hrel hrelns hdomns hstat
    have hcore : parseSavedFileLine statExists backupDir
        ⟨"FILE_SAVED: path=".data ++ rel ++ " domain=".data ++ dom⟩ =
        parseSavedFileCore statExists backupDir
          ("FILE_SAVED: path=".data ++ rel ++ " domain=".data ++ dom) := rfl
    rw [hcore]
    have hshape : "FILE_SAVED: path=".data ++ rel ++ " domain=".data ++ dom =
        "FILE_SAVED: ".data ++ ('p' :: 'a' :: 't' :: 'h' :: '=' ::
          (rel ++ ' ' :: ("domain=".data ++ dom))) := by
      simp
    have hmarker : ("FILE_SAVED: ".data).isPrefixOf
        ("FILE_SAVED: path=".data ++ rel ++ " domain=".data ++ dom) = true := by
      rw [hshape, List.isPrefixOf_iff_prefix]
      exact List.prefix_append _ _
    have hskip : findPathDomain
        ("FILE_SAVED: path=".data ++ rel ++ " domain=".data ++ dom) =
        some (rel, dom) := by
      rw [hshape]
      show findPathDomain ('F' :: 'I' :: 'L' :: 'E' :: '_' :: 'S' :: 'A' :: 'V' ::
        'E' :: 'D' :: ':' :: ' ' :: 'p' :: 'a' :: 't' :: 'h' :: '=' ::
        (rel ++ ' ' :: ("domain=".data ++ dom))) = some (rel, dom)
      rw [findPathDomain_cons_ne 'F' _ (by decide),
        findPathDomain_cons_ne 'I' _ (by decide),
        findPathDomain_cons_ne 'L' _ (by decide),
        findPathDomain_cons_ne 'E' _ (by decide),
        findPathDomain_cons_ne '_' _ (by decide),
        findPathDomain_cons_ne 'S' _ (by decide),
        findPathDomain_cons_ne 'A' _ (by decide),
        findPathDomain_cons_ne 'V' _ (by decide),
        findPathDomain_cons_ne 'E' _ (by decide),
        findPathDomain_cons_ne 'D' _ (by decide),
        findPathDomain_cons_ne ':' _ (by decide),
        findPathDomain_cons_ne ' ' _ (by decide)]
      exact findPathDomain_wellformed rel dom hrel hrelns hdomns
    unfold parseSavedFileCore
    rw [hmarker, hskip]
    simp only [Bool.not_true, Bool.false_eq_true, if_false]
    rw [hstat]
    rfl
  · intro statExists backupDir line hmarker
    have hcore : parseSavedFileLine statExists backupDir line =
        parseSavedFileCore statExists backupDir line.data := rfl
    rw [hcore]
    unfold parseSavedFileCore
    rw [hmarker]
    rfl

/-- C6 amended witness: the spec's concrete scenario — the example
`FILE_SAVED` line resolves against the backup directory's parent when the
file exists, and `"Not a FILE_SAVED line"` yields no path and no domain. -/
theorem parseSavedFileLine_spec_witness :
    parseSavedFileLine (fun _ => true) "/data/00008110-Y"
        ⟨"FILE_SAVED: path=".data ++ "00008110-X/Snapshot/test.txt".data ++
          " domain=".data ++ "MediaDomain".data⟩ =
      (goClean (goJoin (goDir "/data/00008110-Y") "00008110-X/Snapshot/test.txt"),
       "MediaDomain") ∧
    parseSavedFileLine (fun _ => true) "/data/00008110-Y" "Not a FILE_SAVED line" =
      ("", "") :=
  ⟨parseSavedFileLine_spec.1 (fun _ => true) "/data/00008110-Y"
      "00008110-X/Snapshot/test.txt".data "MediaDomain".data
      (by decide) (by decide) (by decide) (by decide),
   parseSavedFileLine_spec.2 (fun _ => true) "/data/00008110-Y"
      "Not a FILE_SAVED line" (by decide)⟩

/-! ### C1: converters replace files only via temp-file-then-rename -/

/-- The C1 contract of one converter run `r` on `fs`, destination `path`,
temp path `tmp`, where `pipeline` is the decode-resize-encode composition:
on failure the destination is untouched and the temp file is gone (either
removed, or never created — in which case the path holds whatever unrelated
bytes it held before); on success the destination holds exactly the bytes
the pipeline encodes from the old destination content, the temp file is
gone, and no other path is touched in either case. -/
abbrev AtomicSwap (tmp : String) (fs : FSm) (path : String) (r : Bool × FSm)
    (pipeline : Bytes → Option Bytes) : Prop :=
  (r.1 = false → r.2 path = fs path ∧ (r.2 tmp = none ∨ r.2 tmp = fs tmp)) ∧
  (r.1 = true → ∃ contents encoded, fs path = some contents ∧
     pipeline contents = some encoded ∧ r.2 path = some encoded ∧ r.2 tmp = none) ∧
  (∀ q, q ≠ path → q ≠ tmp → r.2 q = fs q)

/-- The shared converter body satisfies the C1 contract, for any decoder. -/
theorem convertImageToJpeg_atomic (decode : Bytes → Option GoImage)
    (env : ConvEnv) (fs : FSm) (path : String)
    (hne : tempPathFor env path ≠ path) :
    AtomicSwap (tempPathFor env path) fs path
      (convertImageToJpeg decode env fs path)
      (fun contents => (decode contents).bind fun img =>
        env.encodeJpeg (resizeImage img standardImageWidth)) := by
  have hpathne : path ≠ tempPathFor env path := Ne.symm hne
  unfold convertImageToJpeg
  cases hopen : fs path with
  | none =>
      dsimp only
      refine ⟨fun _ => ⟨rfl, Or.inr rfl⟩, fun h => by simp at h, fun q _ _ => rfl⟩
  | some contents =>
      dsimp only
      cases hdec : decode contents with
      | none =>
          dsimp only
          refine ⟨fun _ => ⟨rfl, Or.inr rfl⟩, fun h => by simp at h, fun q _ _ => rfl⟩
      | some img =>
          cases htmp : env.tempOk with
          | false =>
              dsimp only
              refine ⟨fun _ => ⟨rfl, Or.inr rfl⟩, fun h => by simp at h,
                fun q _ _ => rfl⟩
          | true =>
              simp only [Bool.not_true, Bool.false_eq_true, if_false]
              cases henc : env.encodeJpeg (resizeImage img standardImageWidth) with
              | none =>
                  dsimp only
                  refine ⟨fun _ => ⟨?_, Or.inl ?_⟩, fun h => by simp at h,
                    fun q hq hqt => ?_⟩
                  · simp [fsSet, hpathne, hopen]
                  · simp [fsSet]
                  · simp [fsSet, hqt]
              | some encoded =>
                  dsimp only
                  cases hren : env.renameOk with
                  | false =>
                      simp only [Bool.false_eq_true, if_false]
                      refine ⟨fun _ => ⟨?_, Or.inl ?_⟩, fun h => by simp at h,
                        fun q hq hqt => ?_⟩
                      · simp [fsSet, hpathne, hopen]
                      · simp [fsSet]
                      · simp [fsSet, hqt]
                  | true =>
                      simp only [if_true]
                      refine ⟨fun h => by simp at h, fun _ => ?_, fun q hq hqt => ?_⟩
                      · refine ⟨contents, encoded, hopen, ?_, ?_, ?_⟩
                        · simp [hdec, henc]
                        · simp [goRename, fsSet, hne]
                        · simp [goRename, fsSet, hpathne, hne]
                      · simp [goRename, fsSet, hq, hqt]

/-- `resizeJpeg` (via `resizeJpegImage`) satisfies the C1 contract. -/
theorem resizeJpeg_atomic (env : ConvEnv) (fs : FSm) (path : String)
    (hne : tempPathFor env path ≠ path) :
    AtomicSwap (tempPathFor env path) fs path (resizeJpeg env fs path)
      (fun contents => (env.decodeJpeg contents).bind fun img =>
        env.encodeJpeg (resizeImage img standardImageWidth)) := by
  have hpathne : path ≠ tempPathFor env path := Ne.symm hne
  unfold resizeJpeg resizeJpegImage
  cases hopen : fs path with
  | none =>
      dsimp only
      refine ⟨fun _ => ⟨rfl, Or.inr rfl⟩, fun h => by simp at h, fun q _ _ => rfl⟩
  | some contents =>
      dsimp only
      cases hdec : env.decodeJpeg contents with
      | none =>
          dsimp only
          refine ⟨fun _ => ⟨rfl, Or.inr rfl⟩, fun h => by simp at h, fun q _ _ => rfl⟩
      | some img =>
          cases htmp : env.tempOk with
          | false =>
              dsimp only
              refine ⟨fun _ => ⟨rfl, Or.inr rfl⟩, fun h => by simp at h,
                fun q _ _ => rfl⟩
          | true =>
              simp only [Bool.not_true, Bool.false_eq_true, if_false]
              cases hcre : env.createOk with
              | false =>
                  simp only [Bool.not_false, if_true]
                  refine ⟨fun _ => ⟨?_, Or.inl ?_⟩, fun h => by simp at h,
                    fun q hq hqt => ?_⟩
                  · simp [fsSet, hpathne, hopen]
                  · simp [fsSet]
                  · simp [fsSet, hqt]
              | true =>
                  simp only [Bool.not_true, Bool.false_eq_true, if_false]
                  cases henc : env.encodeJpeg (resizeImage img standardImageWidth) with
                  | none =>
                      dsimp only
                      refine ⟨fun _ => ⟨?_, Or.inl ?_⟩, fun h => by simp at h,
                        fun q hq hqt => ?_⟩
                      · simp [fsSet, hpathne, hopen]
                      · simp [fsSet]
                      · simp [fsSet, hqt]
                  | some encoded =>
                      dsimp only
                      cases hren : env.renameOk with
                      | false =>
                          simp only [Bool.false_eq_true, if_false]
                          refine ⟨fun _ => ⟨?_, Or.inl ?_⟩, fun h => by simp at h,
                            fun q hq hqt => ?_⟩
                          · simp [fsSet, hpathne, hopen]
                          · simp [fsSet]
                          · simp [fsSet, hqt]
                      | true =>
                          simp only [if_true]
                          refine ⟨fun h => by simp at h, fun _ => ?_,
                            fun q hq hqt => ?_⟩
                          · refine ⟨contents, encoded, hopen, ?_, ?_, ?_⟩
                            · simp [hdec, henc]
                            · simp [goRename, fsSet, hne]
                            · simp [goRename, fsSet, hpathne, hne]
                          · simp [goRename, fsSet, hq, hqt]

/-- C1: every in-process conversion (GIF→JPEG, PNG→JPEG, WEBP→JPEG, JPEG
resize) replaces the destination's bytes only by encoding the converted
image into a fresh temp file created by `os.CreateTemp` in the
destination's own directory (`tempPathFor`) and renaming it over the
destination; on any failure before the rename (open, decode, temp-creation,
create or encode error) it returns `false`, leaves the destination's bytes
unchanged and leaves no temp file behind; and no other path is ever
touched. -/
theorem conversions_replace_only_via_temp_rename (env : ConvEnv) (fs : FSm)
    (path : String) (hne : tempPathFor env path ≠ path) :
    AtomicSwap (tempPathFor env path) fs path (convertGifToJpeg env fs path)
      (fun contents => (env.decodeGif contents).bind fun img =>
        env.encodeJpeg (resizeImage img standardImageWidth)) ∧
    AtomicSwap (tempPathFor env path) fs path (convertPngToJpeg env fs path)
      (fun contents => (env.decodePng contents).bind fun img =>
        env.encodeJpeg (resizeImage img standardImageWidth)) ∧
    AtomicSwap (tempPathFor env path) fs path (convertWebpToJpeg env fs path)
      (fun contents => (env.decodeWebp contents).bind fun img =>
        env.encodeJpeg (resizeImage img standardImageWidth)) ∧
    AtomicSwap (tempPathFor env path) fs path (resizeJpeg env fs path)
      (fun contents => (env.decodeJpeg contents).bind fun img =>
        env.encodeJpeg (resizeImage img standardImageWidth)) :=
  ⟨convertImageToJpeg_atomic env.decodeGif env fs path hne,
   convertImageToJpeg_atomic env.decodePng env fs path hne,
   convertImageToJpeg_atomic env.decodeWebp env fs path hne,
   resizeJpeg_atomic env fs path hne⟩

/-- An oracle whose decoders all fail (a corrupt input file). -/
def c1Env : ConvEnv :=
  ⟨fun _ => none, fun _ => none, fun _ => none, fun _ => none, fun _ => none,
   "gif_conv_1.jpg", true, true, true⟩

/-- A file system holding one corrupt GIF. -/
def c1Fs : FSm := fun q => if q = "d/f.gif" then some [1, 2, 3] else none

/-- C1 witness: converting a corrupt GIF (decode fails) leaves its bytes
unchanged and no temp file at the temp path. -/
theorem conversions_replace_only_via_temp_rename_witness :
    (convertGifToJpeg c1Env c1Fs "d/f.gif").2 "d/f.gif" = c1Fs "d/f.gif" ∧
    ((convertGifToJpeg c1Env c1Fs "d/f.gif").2 (tempPathFor c1Env "d/f.gif") = none ∨
     (convertGifToJpeg c1Env c1Fs "d/f.gif").2 (tempPathFor c1Env "d/f.gif") =
       c1Fs (tempPathFor c1Env "d/f.gif")) :=
  (conversions_replace_only_via_temp_rename c1Env c1Fs "d/f.gif"
    (by decide)).1.1 (by decide)

/-! ### C8: the per-class semaphores bound heavyweight concurrency -/

/-- Capacity bound along any single step, for every capacity-gated class. -/
theorem semStep_preserves_cap {s t : SemState} (hst : SemStep s t)
    (h : ∀ c cap, semCap c = some cap → s c ≤ cap) :
    ∀ c cap, semCap c = some cap → t c ≤ cap := by
  intro c cap hcap
  cases hst with
  | acquire c' cap' hcap' hlt =>
      by_cases hcc : c = c'
      · subst hcc
        rw [hcap] at hcap'
        injection hcap' with hcap''
        have hred : (fun d => if d = c then s c + 1 else s d) c = s c + 1 := by
          simp
        rw [hred]
        omega
      · have hred : (fun d => if d = c' then s c' + 1 else s d) c = s c := by
          simp [hcc]
        rw [hred]
        exact h c cap hcap
  | release c' hpos =>
      by_cases hcc : c = c'
      · subst hcc
        have hred : (fun d => if d = c then s c - 1 else s d) c = s c - 1 := by
          simp
        rw [hred]
        exact le_trans (Nat.sub_le _ _) (h c cap hcap)
      · have hred : (fun d => if d = c' then s c' - 1 else s d) c = s c := by
          simp [hcc]
        rw [hred]
        exact h c cap hcap

/-- C8: in every reachable interleaving, the number of conversions
simultaneously inside a heavyweight section never exceeds its class's
semaphore capacity — 5 for video, 100 for HEIC, 5 for GIF — because each
such conversion acquires the class's counting semaphore before the heavy
step and the deferred release runs on every exit path, while the PNG, WEBP
and JPEG converters are gated by no semaphore at all. -/
theorem semaphores_bound_concurrency (s : SemState) (h : SemReachable s) :
    s ConvClass.video ≤ videoSemCap ∧ s ConvClass.heic ≤ heicSemCap ∧
    s ConvClass.gif ≤ gifSemCap ∧
    semCap ConvClass.png = none ∧ semCap ConvClass.webp = none ∧
    semCap ConvClass.jpeg = none := by
  have hinv : ∀ c cap, semCap c = some cap → s c ≤ cap := by
    induction h with
    | refl =>
        intro c cap _
        exact Nat.zero_le _
    | tail _ hstep ih => exact semStep_preserves_cap hstep ih
  exact ⟨hinv ConvClass.video videoSemCap rfl, hinv ConvClass.heic heicSemCap rfl,
    hinv ConvClass.gif gifSemCap rfl, rfl, rfl, rfl⟩

/-- C8 witness: the state after one video acquisition and one GIF
acquisition is reachable and satisfies the bounds. -/
theorem semaphores_bound_concurrency_witness :
    ((fun d => if d = ConvClass.gif
        then (fun e => if e = ConvClass.video then semInit e + 1 else semInit e)
          ConvClass.gif + 1
        else (fun e => if e = ConvClass.video then semInit e + 1 else semInit e) d)
      ConvClass.video ≤ videoSemCap) ∧
    semCap ConvClass.png = none :=
  have h1 : SemStep semInit
      (fun e => if e = ConvClass.video then semInit e + 1 else semInit e) :=
    SemStep.acquire semInit ConvClass.video videoSemCap rfl (by decide)
  have h2 := SemStep.acquire
    (fun e => if e = ConvClass.video then semInit e + 1 else semInit e)
    ConvClass.gif gifSemCap rfl (by decide)
  have hreach : SemReachable
      (fun d => if d = ConvClass.gif
        then (fun e => if e = ConvClass.video then semInit e + 1 else semInit e)
          ConvClass.gif + 1
        else (fun e => if e = ConvClass.video then semInit e + 1 else semInit e) d) :=
    Relation.ReflTransGen.tail (Relation.ReflTransGen.single h1) h2
  have h := semaphores_bound_concurrency _ hreach
  ⟨h.1, h.2.2.2.1⟩

/-! ### C9: the progress ledger -/

/-- `countActive` over the initial all-idle phase list is zero. -/
theorem countActive_replicate_zero (n : Nat) :
    countActive (List.replicate n 0) = 0 := by
  induction n with
  | zero => rfl
  | succ n ih => simpa [List.replicate, countActive] using ih

/-- `countCounted` over the initial all-idle phase list is zero. -/
theorem countCounted_replicate_zero (n : Nat) (fl : List Bool) :
    countCounted (List.replicate n 0) fl = 0 := by
  induction n generalizing fl with
  | zero => rfl
  | succ n ih =>
      cases fl with
      | nil => rfl
      | cons f ft => simpa [List.replicate, countCounted] using ih ft

/-- How one `List.set` changes `countActive`. -/
theorem countActive_set (ps : List Nat) (j a b : Nat) (h : ps[j]? = some a) :
    countActive (ps.set j b) + (if a = 1 ∨ a = 2 then 1 else 0) =
    countActive ps + (if b = 1 ∨ b = 2 then 1 else 0) := by
  induction ps generalizing j with
  | nil => simp at h
  | cons p t ih =>
      cases j with
      | zero =>
          simp only [List.getElem?_cons_zero, Option.some.injEq] at h
          subst h
          simp only [List.set_cons_zero, countActive]
          omega
      | succ j' =>
          simp only [List.getElem?_cons_succ] at h
          simp only [List.set_cons_succ, countActive]
          have := ih j' h
          omega

/-- How one `List.set` changes `countCounted`. -/
theorem countCounted_set (ps : List Nat) (fl : List Bool) (j a b : Nat)
    (h : ps[j]? = some a) :
    countCounted (ps.set j b) fl + (if 2 ≤ a ∧ fl.getD j false then 1 else 0) =
    countCounted ps fl + (if 2 ≤ b ∧ fl.getD j false then 1 else 0) := by
  induction ps generalizing j fl with
  | nil => simp at h
  | cons p t ih =>
      cases fl with
      | nil =>
          cases j with
          | zero => simp [List.set_cons_zero, countCounted, List.getD]
          | succ j' => simp [List.set_cons_succ, countCounted, List.getD]
      | cons f ft =>
          cases j with
          | zero =>
              simp only [List.getElem?_cons_zero, Option.some.injEq] at h
              subst h
              simp only [List.set_cons_zero, countCounted, List.getD_cons_zero]
              omega
          | succ j' =>
              simp only [List.getElem?_cons_succ] at h
              simp only [List.set_cons_succ, countCounted, List.getD_cons_succ]
              have := ih ft j' h
              omega

/-- Once every job is done, no job is active. -/
theorem countActive_eq_zero_of_done (ps : List Nat) (h : ∀ p ∈ ps, p = 3) :
    countActive ps = 0 := by
  induction ps with
  | nil => rfl
  | cons p t ih =>
      have hp : p = 3 := h p (List.mem_cons_self p t)
      subst hp
      simpa [countActive] using ih fun q hq => h q (List.mem_cons_of_mem _ hq)

/-- Once every job is done, `countCounted` is the number of transform jobs. -/
theorem countCounted_eq_count_of_done (ps : List Nat) (fl : List Bool)
    (hlen : ps.length = fl.length) (h : ∀ p ∈ ps, p = 3) :
    countCounted ps fl = fl.count true := by
  induction ps generalizing fl with
  | nil =>
      cases fl with
      | nil => rfl
      | cons f ft => simp at hlen
  | cons p t ih =>
      cases fl with
      | nil => simp at hlen
      | cons f ft =>
          have hp : p = 3 := h p (List.mem_cons_self p t)
          subst hp
          have hrec := ih ft (by simpa using hlen)
            fun q hq => h q (List.mem_cons_of_mem _ hq)
          cases f with
          | false => simpa [countCounted, List.count_cons] using hrec
          | true =>
              simp only [countCounted, List.count_cons]
              norm_num
              omega

/-- C9 counterexample: the invariant `activeCount ≤ totalCount` fails in a
reachable interleaving. `processFile` increments `activeCount` before
`ProcessFileByExtension` runs, and `totalCount` is only incremented inside
that call, so right after the first job's start the ledger reads
`activeCount = 1, totalCount = 0`. -/
theorem ledger_active_can_exceed_total :
    ∃ s : LedgerState, LedgerReachable [true] s ∧ ¬(s.active ≤ s.total) := by
  refine ⟨⟨(ledgerInit 1).phases.set 0 1, (ledgerInit 1).active + 1,
    (ledgerInit 1).total⟩, ?_, by norm_num [ledgerInit]⟩
  exact Relation.ReflTransGen.single
    (LedgerStep.start (ledgerInit 1) 0 (by decide))

/-- C9 amended: in every reachable interleaving the ledger's counters are
exact job counts — `activeCount` equals the number of jobs between their
start (activeCount++) and end (activeCount--), hence never negative, and
`totalCount` equals the number of jobs past their single `incrementTotal`
point that begin transformation; consequently, once every job has finished
(the state the shutdown drain waits for), `activeCount` is 0 and the final
reported `totalCount` equals the number of jobs that began transformation.
(`activeCount ≤ totalCount` itself holds in exactly those states where
every active job has passed its `incrementTotal` point and begins
transformation — not in all states, see the counterexample.) -/
theorem ledger_invariants (flags : List Bool) (s : LedgerState)
    (h : LedgerReachable flags s) :
    s.phases.length = flags.length ∧
    s.active = (countActive s.phases : Int) ∧
    s.total = (countCounted s.phases flags : Int) ∧
    0 ≤ s.active ∧
    ((∀ p ∈ s.phases, p = 3) →
      s.active = 0 ∧ s.total = (flags.count true : Int)) := by
  have main : s.phases.length = flags.length ∧
      s.active = (countActive s.phases : Int) ∧
      s.total = (countCounted s.phases flags : Int) := by
    induction h with
    | refl =>
        refine ⟨by simp [ledgerInit], ?_, ?_⟩
        · simp [ledgerInit, countActive_replicate_zero]
        · simp [ledgerInit, countCounted_replicate_zero]
    | tail hreach hstep ih =>
        obtain ⟨ihlen, ihact, ihtot⟩ := ih
        cases hstep with
        | start j hj =>
            have hset := countActive_set _ j 0 1 hj
            have hset2 := countCounted_set _ flags j 0 1 hj
            norm_num at hset hset2
            refine ⟨by simpa using ihlen, ?_, ?_⟩
            · dsimp only
              rw [ihact]
              omega
            · dsimp only
              rw [ihtot]
              omega
        | work j hj =>
            have hset := countActive_set _ j 1 2 hj
            have hset2 := countCounted_set _ flags j 1 2 hj
            norm_num at hset
            refine ⟨by simpa using ihlen, ?_, ?_⟩
            · dsimp only
              rw [ihact]
              omega
            · dsimp only
              rw [ihtot]
              cases hf : flags.getD j false with
              | false =>
                  rw [hf] at hset2
                  norm_num at hset2
                  norm_num
                  omega
              | true =>
                  rw [hf] at hset2
                  norm_num at hset2
                  norm_num
                  omega
        | finish j hj =>
            have hset := countActive_set _ j 2 3 hj
            have hset2 := countCounted_set _ flags j 2 3 hj
            norm_num at hset
            refine ⟨by simpa using ihlen, ?_, ?_⟩
            · dsimp only
              rw [ihact]
              omega
            · dsimp only
              rw [ihtot]
              cases hf : flags.getD j false with
              | false =>
                  rw [hf] at hset2
                  norm_num at hset2
                  omega
              | true =>
                  rw [hf] at hset2
                  norm_num at hset2
                  omega
  obtain ⟨hlen, hact, htot⟩ := main
  refine ⟨hlen, hact, htot, ?_, fun hall => ⟨?_, ?_⟩⟩
  · rw [hact]
    exact Int.natCast_nonneg _
  · rw [hact, countActive_eq_zero_of_done _ hall]
    rfl
  · rw [htot, countCounted_eq_count_of_done _ _ hlen hall]

/-- C9 amended witness: with no jobs dispatched the drained ledger reports
`activeCount = 0` and a final total equal to the number of transform jobs. -/
theorem ledger_invariants_witness :
    (ledgerInit 0).active = 0 ∧
    (ledgerInit 0).total = (([] : List Bool).count true : Int) :=
  (ledger_invariants [] (ledgerInit 0) Relation.ReflTransGen.refl).2.2.2.2
    (by simp [ledgerInit])

end IosBackup
